import Mathlib

/-!
Verification of the Video-Detection repository's analysis pipeline and
frontend logic. The repository ships the React frontend (frontend/src/App.js);
the backend pipeline (frame sampler, quality filter, detection aggregator,
activity inference engine, orchestrator) is described by the specification and
is modelled here from the specification's own words. Confidence values
(JS / Python floats) are modelled as rationals.
-/

/-- Modelled from the spec: a `Detection` record (section 3) — one object
instance found in one frame, with class label and confidence in `[0,1]`.
The backend source producing these is not in the repository snapshot. -/
structure Detection where
  label : String
  confidence : ℚ
deriving DecidableEq

/-- Modelled from the spec: an `AggregatedDetection` record (section 3) —
one distinct class label with total count across frames, mean confidence and
number of frames in which it appeared. -/
structure AggregatedDetection where
  label : String
  count : ℕ
  meanConfidence : ℚ
  framesAppearedIn : ℕ
deriving DecidableEq

/-- Modelled from the spec: all detections of class `c` across the ordered
per-frame detection sequences (section 4.4 groups detections by class label). -/
def classDetections (frames : List (List Detection)) (c : String) : List Detection :=
  frames.flatten.filter (fun d => d.label == c)

/-- Modelled from the spec: the distinct class labels occurring in the
per-frame detection sequences. -/
def labelsOf (frames : List (List Detection)) : List String :=
  (frames.flatten.map Detection.label).dedup

/-- Modelled from the spec: `count` = number of raw detections of the class
across all frames (section 4.4). -/
def classCount (frames : List (List Detection)) (c : String) : ℕ :=
  (classDetections frames c).length

/-- Modelled from the spec: the confidences of all detections of class `c`. -/
def classConfidences (frames : List (List Detection)) (c : String) : List ℚ :=
  (classDetections frames c).map Detection.confidence

/-- Modelled from the spec: mean confidence = arithmetic mean of the group's
confidence values (section 4.4). -/
def classMeanConfidence (frames : List (List Detection)) (c : String) : ℚ :=
  (classConfidences frames c).sum / (classCount frames c)

/-- Modelled from the spec: frames-appeared-in = number of distinct source
frames contributing at least one detection of the class (section 4.4). -/
def classFrames (frames : List (List Detection)) (c : String) : ℕ :=
  (frames.filter (fun f => f.any (fun d => d.label == c))).length

/-- Modelled from the spec: the `AggregatedDetection` built for class `c`. -/
def mkAgg (frames : List (List Detection)) (c : String) : AggregatedDetection :=
  ⟨c, classCount frames c, classMeanConfidence frames c, classFrames frames c⟩

/-- Modelled from the spec: the required output ordering of the Detection
Aggregator (section 4.4) — `a` precedes `b` when `a` has strictly greater
count, or equal count and strictly greater mean confidence, or equal count and
mean confidence and lexically smaller-or-equal class label. -/
def precedes (a b : AggregatedDetection) : Prop :=
  b.count < a.count ∨
    (a.count = b.count ∧
      (b.meanConfidence < a.meanConfidence ∨
        (a.meanConfidence = b.meanConfidence ∧ a.label ≤ b.label)))

instance : DecidableRel precedes := fun a b => by
  unfold precedes
  infer_instance

instance : IsTotal AggregatedDetection precedes := by
  constructor
  intro a b
  rcases lt_trichotomy a.count b.count with hc | hc | hc
  · exact Or.inr (Or.inl hc)
  · rcases lt_trichotomy a.meanConfidence b.meanConfidence with hm | hm | hm
    · exact Or.inr (Or.inr ⟨hc.symm, Or.inl hm⟩)
    · rcases le_total a.label b.label with hl | hl
      · exact Or.inl (Or.inr ⟨hc, Or.inr ⟨hm, hl⟩⟩)
      · exact Or.inr (Or.inr ⟨hc.symm, Or.inr ⟨hm.symm, hl⟩⟩)
    · exact Or.inl (Or.inr ⟨hc, Or.inl hm⟩)
  · exact Or.inl (Or.inl hc)

instance : IsTrans AggregatedDetection precedes := by
  constructor
  intro a b c hab hbc
  rcases hab with hab | ⟨eab, hab⟩
  · rcases hbc with hbc | ⟨ebc, hbc⟩
    · exact Or.inl (hbc.trans hab)
    · exact Or.inl (ebc ▸ hab)
  · rcases hbc with hbc | ⟨ebc, hbc⟩
    · exact Or.inl (by rw [eab]; exact hbc)
    · refine Or.inr ⟨eab.trans ebc, ?_⟩
      rcases hab with hab | ⟨mab, hab⟩
      · rcases hbc with hbc | ⟨mbc, hbc⟩
        · exact Or.inl (hbc.trans hab)
        · exact Or.inl (mbc ▸ hab)
      · rcases hbc with hbc | ⟨mbc, hbc⟩
        · exact Or.inl (by rw [mab]; exact hbc)
        · exact Or.inr ⟨mab.trans mbc, hab.trans hbc⟩

/-- Modelled from the spec: the Detection Aggregator (section 4.4) — one
`AggregatedDetection` per distinct class label, ordered by descending count,
then descending mean confidence, then ascending class label. -/
def aggregate (frames : List (List Detection)) : List AggregatedDetection :=
  List.insertionSort precedes ((labelsOf frames).map (mkAgg frames))

/-- Modelled from the spec: one rule of the Activity Inference Engine's static
rule table (section 4.5) — a required subset of class labels with minimum
aggregate-count and mean-confidence thresholds, and an activity description. -/
structure Rule where
  requiredClasses : List String
  minCount : ℕ
  minMeanConfidence : ℚ
  description : String

/-- Modelled from the spec: whether a rule's condition is satisfied by the
aggregated set — every required class is present with the rule's thresholds
met (section 4.5). -/
def ruleMatches (r : Rule) (aggs : List AggregatedDetection) : Bool :=
  r.requiredClasses.all fun c =>
    aggs.any fun a =>
      a.label == c && decide (r.minCount ≤ a.count) &&
        decide (r.minMeanConfidence ≤ a.meanConfidence)

/-- Modelled from the spec: the designated fixed result returned when the
aggregated set is empty (sections 4.2 and 4.5). -/
def noActivityResult : String := "No clear activity detected"

/-- Modelled from the spec: the Activity Inference Engine (section 4.5) —
first matching rule wins; with no match but a non-empty aggregated set the
generic fallback names the top class; the empty set yields the designated
no-activity result. -/
def inferActivity (rules : List Rule) (aggs : List AggregatedDetection) : String :=
  match aggs with
  | [] => noActivityResult
  | top :: rest =>
    match rules.find? (fun r => ruleMatches r (top :: rest)) with
    | some r => r.description
    | none => "Activity involving " ++ top.label

/-- Modelled from the spec: a `RawFrame` (section 3) — a decoded image
abstracted to its frame index and mean-brightness statistic (0–255 scale). -/
structure RawFrame where
  index : ℕ
  brightness : ℕ
deriving DecidableEq

/-- Modelled from the spec: the Quality Filter's accept decision
(section 4.2) — mean brightness must lie inside the configurable band. -/
def frameAccepted (dark bright : ℕ) (f : RawFrame) : Bool :=
  decide (dark ≤ f.brightness) && decide (f.brightness ≤ bright)

/-- Modelled from the spec: the frames surviving the Quality Filter. -/
def acceptedFrames (dark bright : ℕ) (frames : List RawFrame) : List RawFrame :=
  frames.filter (frameAccepted dark bright)

/-- Modelled from the spec: per-frame detection with non-fatal model failure
(sections 4.3 and 4.6) — a frame on which the detection model fails (`none`)
contributes an empty detection sequence. -/
def perFrameDetections (detect : RawFrame → Option (List Detection))
    (frames : List RawFrame) : List (List Detection) :=
  frames.map (fun f => (detect f).getD [])

/-- Modelled from the spec: the fixed cap on classes in the final payload
(section 4.4, top 5). -/
def topClassCap : ℕ := 5

/-- Modelled from the spec: the `PipelineResult` payload (section 3) with the
processing statistics of section 4.6, including the count of per-frame
detection-model failures. -/
structure PipelineResult where
  detections : List AggregatedDetection
  activity : String
  framesSampled : ℕ
  framesPassedFilter : ℕ
  totalDetections : ℕ
  modelFailures : ℕ
deriving DecidableEq

/-- Modelled from the spec: the Pipeline Orchestrator (section 4.6) —
quality-filter the sampled frames, detect per frame (model failures giving an
empty contribution), aggregate, cap the payload, infer the activity, and
collect statistics. -/
def runPipeline (rules : List Rule) (dark bright : ℕ) (frames : List RawFrame)
    (detect : RawFrame → Option (List Detection)) : PipelineResult :=
  ⟨(aggregate (perFrameDetections detect (acceptedFrames dark bright frames))).take topClassCap,
   inferActivity rules (aggregate (perFrameDetections detect (acceptedFrames dark bright frames))),
   frames.length,
   (acceptedFrames dark bright frames).length,
   (perFrameDetections detect (acceptedFrames dark bright frames)).flatten.length,
   (acceptedFrames dark bright frames).countP (fun f => (detect f).isNone)⟩

/-- Modelled from the spec: evenly spaced frame indices within one timeline
zone `[lo, hi)` of the Frame Sampler (section 4.1). -/
def sampleZone (lo hi k : ℕ) : List ℕ :=
  (List.range k).map (fun i => lo + i * (hi - lo) / k)

/-- Modelled from the spec: the Frame Sampler's index selection
(section 4.1) — when the video has at most `n` decodable frames, all frames
are returned; otherwise samples are drawn from the first ~15%, middle ~50%
and last ~15% of the timeline. -/
def sampleIndices (total n : ℕ) : List ℕ :=
  if total ≤ n then List.range total
  else
    sampleZone 0 (total * 15 / 100) (n / 4) ++
      sampleZone (total * 25 / 100) (total * 75 / 100) (n - n / 4 - n / 4) ++
      sampleZone (total * 85 / 100) total (n / 4)

/-- JS `String.prototype.startsWith`, as used by `handleFileChange` in
frontend/src/App.js, embedded via the underlying character list. -/
def stringStartsWith (s p : String) : Bool :=
  p.data.isPrefixOf s.data

/-- A selected file as seen by `handleFileChange` in frontend/src/App.js:
its name and MIME type. -/
structure UploadFile where
  name : String
  type : String
deriving DecidableEq

/-- The React component state touched by `handleFileChange` and
`handleUpload` in frontend/src/App.js. -/
structure AppState where
  file : Option UploadFile
  error : Option String
  loading : Bool
deriving DecidableEq

/-- The error message set by `handleFileChange` for a non-video selection
(frontend/src/App.js line 35). -/
def invalidFileMessage : String := "Please select a valid video file"

/-- Embedding of `handleFileChange` (frontend/src/App.js lines 29–38): a
selected file with a MIME type starting with "video/" is stored and the error
cleared; otherwise the error message is set and the stored file cleared. -/
def handleFileChange (selected : Option UploadFile) (s : AppState) : AppState :=
  match selected with
  | some f =>
    if stringStartsWith f.type "video/" then { s with file := some f, error := none }
    else { s with file := none, error := some invalidFileMessage }
  | none => { s with file := none, error := some invalidFileMessage }

/-- The observable effect of one call to `handleUpload`: either no request is
issued, or the stored file is posted to the backend. -/
inductive UploadEffect where
  | noRequest : UploadEffect
  | postRequest : UploadFile → UploadEffect
deriving DecidableEq

/-- Embedding of the request-issuing behavior of `handleUpload`
(frontend/src/App.js lines 40–70): with no stored file it returns
immediately without issuing a request; otherwise it posts the stored file. -/
def handleUpload (s : AppState) : UploadEffect :=
  match s.file with
  | none => UploadEffect.noRequest
  | some f => UploadEffect.postRequest f

/-- Embedding of `getConfidenceColor` (frontend/src/App.js lines 72–76). -/
def getConfidenceColor (confidence : ℚ) : String :=
  if 0.8 ≤ confidence then "success"
  else if 0.6 ≤ confidence then "warning"
  else "error"

/-- The synthetic per-frame detection set of spec section 8: `person` in three
frames with confidences 0.9, 0.8, 0.7 and `dog` in one frame with
confidence 0.6. -/
def exFrames : List (List Detection) :=
  [[⟨"person", 9/10⟩], [⟨"person", 8/10⟩], [⟨"person", 7/10⟩], [⟨"dog", 6/10⟩]]

/-- The detector used in the single-frame-failure witness: it fails on the
frame with index 0 and finds one person elsewhere. -/
def exDetect : RawFrame → Option (List Detection) :=
  fun f => if f.index == 0 then none else some [⟨"person", 9/10⟩]

lemma aggregate_exFrames_eval :
    aggregate exFrames = [⟨"person", 3, 4/5, 3⟩, ⟨"dog", 1, 3/5, 1⟩] := by
  have h : aggregate exFrames = [mkAgg exFrames "person", mkAgg exFrames "dog"] := rfl
  have hmp : classMeanConfidence exFrames "person" = 4/5 := by
    have hc : classConfidences exFrames "person" = [9/10, 8/10, 7/10] := rfl
    have hn : classCount exFrames "person" = 3 := rfl
    unfold classMeanConfidence
    rw [hc, hn]
    norm_num
  have hmd : classMeanConfidence exFrames "dog" = 3/5 := by
    have hc : classConfidences exFrames "dog" = [6/10] := rfl
    have hn : classCount exFrames "dog" = 1 := rfl
    unfold classMeanConfidence
    rw [hc, hn]
    norm_num
  have hp : mkAgg exFrames "person" = ⟨"person", 3, 4/5, 3⟩ := by
    unfold mkAgg
    rw [hmp]
    rfl
  have hd : mkAgg exFrames "dog" = ⟨"dog", 1, 3/5, 1⟩ := by
    unfold mkAgg
    rw [hmd]
    rfl
  rw [h, hp, hd]

lemma aggregate_nil : aggregate [] = [] := rfl

lemma mem_aggregate {frames : List (List Detection)} {a : AggregatedDetection}
    (h : a ∈ aggregate frames) : ∃ c ∈ labelsOf frames, a = mkAgg frames c := by
  have hmem : a ∈ (labelsOf frames).map (mkAgg frames) :=
    (List.perm_insertionSort precedes _).subset h
  obtain ⟨c, hc, rfl⟩ := List.mem_map.mp hmem
  exact ⟨c, hc, rfl⟩

lemma aggregate_sorted (frames : List (List Detection)) :
    List.Sorted precedes (aggregate frames) :=
  List.sorted_insertionSort precedes _

lemma length_filter_any_le (p : Detection → Bool) (l : List (List Detection)) :
    (l.filter (fun f => f.any p)).length ≤ (l.flatten.filter p).length := by
  induction l with
  | nil => simp
  | cons f fs ih =>
    rw [List.flatten_cons, List.filter_append, List.length_append]
    by_cases h : f.any p = true
    · have h1 : 0 < (f.filter p).length := by
        obtain ⟨x, hx, hpx⟩ := List.any_eq_true.mp h
        exact List.length_pos.mpr (List.ne_nil_of_mem (List.mem_filter.mpr ⟨hx, hpx⟩))
      rw [List.filter_cons_of_pos (by simpa using h)]
      simp only [List.length_cons]
      omega
    · rw [List.filter_cons_of_neg (by simpa using h)]
      omega

lemma classFrames_le_classCount (frames : List (List Detection)) (c : String) :
    classFrames frames c ≤ classCount frames c :=
  length_filter_any_le (fun d => d.label == c) frames

lemma classFrames_le_length (frames : List (List Detection)) (c : String) :
    classFrames frames c ≤ frames.length :=
  List.length_filter_le _ _

lemma classCount_pos {frames : List (List Detection)} {c : String}
    (h : c ∈ labelsOf frames) : 0 < classCount frames c := by
  unfold labelsOf at h
  rw [List.mem_dedup] at h
  obtain ⟨d, hd, rfl⟩ := List.mem_map.mp h
  have hdc : d ∈ classDetections frames d.label :=
    List.mem_filter.mpr ⟨hd, by simp⟩
  exact List.length_pos.mpr (List.ne_nil_of_mem hdc)

lemma classMeanConfidence_mem_unit {frames : List (List Detection)} {c : String}
    (hpos : 0 < classCount frames c)
    (hconf : ∀ d ∈ frames.flatten, 0 ≤ d.confidence ∧ d.confidence ≤ 1) :
    0 ≤ classMeanConfidence frames c ∧ classMeanConfidence frames c ≤ 1 := by
  have hsub : ∀ x ∈ classConfidences frames c, 0 ≤ x ∧ x ≤ 1 := by
    intro x hx
    obtain ⟨d, hd, rfl⟩ := List.mem_map.mp hx
    exact hconf d (List.mem_of_mem_filter hd)
  have h0 : (0 : ℚ) ≤ (classConfidences frames c).sum :=
    List.sum_nonneg (fun x hx => (hsub x hx).1)
  have h1 : (classConfidences frames c).sum ≤ (classConfidences frames c).length • (1 : ℚ) :=
    List.sum_le_card_nsmul _ _ (fun x hx => (hsub x hx).2)
  have hlen : (classConfidences frames c).length = classCount frames c :=
    List.length_map _ _
  have hratpos : (0 : ℚ) < (classCount frames c : ℚ) := by exact_mod_cast hpos
  have hle : (classConfidences frames c).sum ≤ (classCount frames c : ℚ) := by
    rw [← hlen]
    simpa [nsmul_eq_mul] using h1
  constructor
  · exact div_nonneg h0 (le_of_lt hratpos)
  · unfold classMeanConfidence
    rw [div_le_one hratpos]
    exact hle

lemma sorted_perm_unique {α : Type} {r : α → α → Prop} :
    ∀ {l₁ l₂ : List α}, l₁.Perm l₂ → l₁.Pairwise r → l₂.Pairwise r →
      (∀ a b, a ∈ l₁ → b ∈ l₂ → r a b → r b a → a = b) → l₁ = l₂ := by
  intro l₁
  induction l₁ with
  | nil =>
    intro l₂ hp _ _ _
    exact hp.nil_eq
  | cons a l ih =>
    intro l₂ hp h₁ h₂ hanti
    cases l₂ with
    | nil => exact absurd hp.eq_nil (List.cons_ne_nil a l)
    | cons b l₂' =>
      have hab : a = b := by
        by_contra hne
        have ha₂ : a ∈ b :: l₂' := hp.subset (List.mem_cons_self a l)
        have ha' : a ∈ l₂' := by
          rcases List.mem_cons.mp ha₂ with h | h
          · exact absurd h hne
          · exact h
        have hb₁ : b ∈ a :: l := hp.symm.subset (List.mem_cons_self b l₂')
        have hb' : b ∈ l := by
          rcases List.mem_cons.mp hb₁ with h | h
          · exact absurd h.symm hne
          · exact h
        have rab : r a b := List.rel_of_pairwise_cons h₁ hb'
        have rba : r b a := List.rel_of_pairwise_cons h₂ ha'
        exact hne (hanti a b (List.mem_cons_self a l) (List.mem_cons_self b l₂') rab rba)
      subst hab
      have htail : l = l₂' :=
        ih hp.cons_inv h₁.of_cons h₂.of_cons
          (fun x y hx hy => hanti x y (List.mem_cons_of_mem a hx) (List.mem_cons_of_mem a hy))
      rw [htail]

lemma precedes_antisymm_label {a b : AggregatedDetection}
    (hab : precedes a b) (hba : precedes b a) : a.label = b.label := by
  rcases hab with h | ⟨e, h⟩
  · rcases hba with h' | ⟨e', _⟩
    · exact absurd (h.trans h') (lt_irrefl _)
    · omega
  · rcases hba with h' | ⟨e', h'⟩
    · omega
    · rcases h with hm | ⟨em, hl⟩
      · rcases h' with hm' | ⟨em', _⟩
        · exact absurd (hm.trans hm') (lt_irrefl _)
        · exact absurd (em' ▸ hm) (lt_irrefl _)
      · rcases h' with hm' | ⟨em', hl'⟩
        · exact absurd (em ▸ hm') (lt_irrefl _)
        · exact le_antisymm hl hl'

/-- C1: for every sequence of per-frame detection sequences, the Detection
Aggregator returns exactly the aggregated classes (a permutation of the
per-class summaries), sorted so that each element precedes the next by
descending count, ties broken by descending mean confidence and remaining
ties by ascending lexical order of the class label. -/
theorem aggregate_output_ordered (frames : List (List Detection)) :
    List.Sorted precedes (aggregate frames) ∧
      (aggregate frames).Perm ((labelsOf frames).map (mkAgg frames)) :=
  ⟨List.sorted_insertionSort precedes _, List.perm_insertionSort precedes _⟩

/-- C2: on the synthetic input where `person` appears in three frames with
confidences 0.9, 0.8, 0.7 and `dog` in one frame with confidence 0.6, the
aggregator ranks `person` first with count 3 and mean confidence 0.8, and
`dog` second with count 1 and mean confidence 0.6. -/
theorem aggregate_synthetic_example :
    aggregate exFrames = [⟨"person", 3, 4/5, 3⟩, ⟨"dog", 1, 3/5, 1⟩] :=
  aggregate_exFrames_eval

/-- C3: the Activity Inference Engine returns the designated fixed
no-activity result on the empty aggregated sequence, and on any non-empty
aggregated sequence satisfying no rule of the rule table it returns the
generic fallback naming the single most frequent (top-ranked) class. -/
theorem inferActivity_fallbacks (rules : List Rule) (aggs : List AggregatedDetection) :
    inferActivity rules [] = noActivityResult ∧
      (∀ top rest, aggs = top :: rest →
        (∀ r ∈ rules, ruleMatches r aggs = false) →
        inferActivity rules aggs = "Activity involving " ++ top.label) := by
  constructor
  · rfl
  · rintro top rest rfl h
    have hfind : rules.find? (fun r => ruleMatches r (top :: rest)) = none :=
      List.find?_eq_none.mpr (fun r hr => by simp [h r hr])
    simp [inferActivity, hfind]

/-- Witness for C3 at concrete inputs: the empty rule table with the empty
aggregated sequence, and with the single aggregated class `person`. -/
theorem inferActivity_fallbacks_witness :
    inferActivity [] [] = noActivityResult ∧
      inferActivity [] [⟨"person", 3, 4/5, 3⟩] = "Activity involving person" := by
  refine ⟨(inferActivity_fallbacks [] []).1, ?_⟩
  have h := (inferActivity_fallbacks [] [⟨"person", 3, 4/5, 3⟩]).2
    ⟨"person", 3, 4/5, 3⟩ [] rfl (by intro r hr; simp at hr)
  rw [h]
  rfl

/-- C4: whenever every sampled frame is rejected by the Quality Filter, the
Orchestrator still returns a valid `PipelineResult`: empty aggregated
detections, the designated no-activity `ActivityResult`, and zeroed
statistics apart from the frames-sampled count — quality rejection never
fails the request. -/
theorem runPipeline_all_frames_rejected (rules : List Rule) (dark bright : ℕ)
    (frames : List RawFrame) (detect : RawFrame → Option (List Detection))
    (h : acceptedFrames dark bright frames = []) :
    runPipeline rules dark bright frames detect =
      ⟨[], noActivityResult, frames.length, 0, 0, 0⟩ := by
  simp [runPipeline, h, perFrameDetections, aggregate, labelsOf, inferActivity,
    List.insertionSort]

/-- Witness for C4: one all-dark frame, rejected by the default brightness
band, with a detector that always fails. -/
theorem runPipeline_all_frames_rejected_witness :
    runPipeline [] 25 230 [⟨0, 5⟩] (fun _ => none) =
      ⟨[], noActivityResult, 1, 0, 0, 0⟩ :=
  runPipeline_all_frames_rejected [] 25 230 [⟨0, 5⟩] (fun _ => none) (by decide)

/-- C5: when the detection model fails on exactly one accepted frame, the
pipeline still completes: the result coincides field by field with the run
in which that frame succeeds with an empty detection sequence, and the
failure shows up only in the model-failure statistic (1 instead of 0). -/
theorem runPipeline_single_frame_failure (rules : List Rule) (dark bright : ℕ)
    (frames : List RawFrame) (detect : RawFrame → Option (List Detection))
    (h : (acceptedFrames dark bright frames).countP (fun f => (detect f).isNone) = 1) :
    (runPipeline rules dark bright frames detect).modelFailures = 1 ∧
      (runPipeline rules dark bright frames detect).detections =
        (runPipeline rules dark bright frames (fun f => some ((detect f).getD []))).detections ∧
      (runPipeline rules dark bright frames detect).activity =
        (runPipeline rules dark bright frames (fun f => some ((detect f).getD []))).activity ∧
      (runPipeline rules dark bright frames detect).framesSampled =
        (runPipeline rules dark bright frames (fun f => some ((detect f).getD []))).framesSampled ∧
      (runPipeline rules dark bright frames detect).framesPassedFilter =
        (runPipeline rules dark bright frames (fun f => some ((detect f).getD []))).framesPassedFilter ∧
      (runPipeline rules dark bright frames detect).totalDetections =
        (runPipeline rules dark bright frames (fun f => some ((detect f).getD []))).totalDetections ∧
      (runPipeline rules dark bright frames (fun f => some ((detect f).getD []))).modelFailures = 0 := by
  refine ⟨h, rfl, rfl, rfl, rfl, rfl, ?_⟩
  simp [runPipeline, List.countP_eq_zero]

/-- Witness for C5: two bright frames, a detector failing exactly on the
frame with index 0. -/
theorem runPipeline_single_frame_failure_witness :
    (runPipeline [] 25 230 [⟨0, 100⟩, ⟨1, 100⟩] exDetect).modelFailures = 1 ∧
      (runPipeline [] 25 230 [⟨0, 100⟩, ⟨1, 100⟩] exDetect).detections =
        (runPipeline [] 25 230 [⟨0, 100⟩, ⟨1, 100⟩] (fun f => some ((exDetect f).getD []))).detections ∧
      (runPipeline [] 25 230 [⟨0, 100⟩, ⟨1, 100⟩] exDetect).activity =
        (runPipeline [] 25 230 [⟨0, 100⟩, ⟨1, 100⟩] (fun f => some ((exDetect f).getD []))).activity ∧
      (runPipeline [] 25 230 [⟨0, 100⟩, ⟨1, 100⟩] exDetect).framesSampled =
        (runPipeline [] 25 230 [⟨0, 100⟩, ⟨1, 100⟩] (fun f => some ((exDetect f).getD []))).framesSampled ∧
      (runPipeline [] 25 230 [⟨0, 100⟩, ⟨1, 100⟩] exDetect).framesPassedFilter =
        (runPipeline [] 25 230 [⟨0, 100⟩, ⟨1, 100⟩] (fun f => some ((exDetect f).getD []))).framesPassedFilter ∧
      (runPipeline [] 25 230 [⟨0, 100⟩, ⟨1, 100⟩] exDetect).totalDetections =
        (runPipeline [] 25 230 [⟨0, 100⟩, ⟨1, 100⟩] (fun f => some ((exDetect f).getD []))).totalDetections ∧
      (runPipeline [] 25 230 [⟨0, 100⟩, ⟨1, 100⟩] (fun f => some ((exDetect f).getD []))).modelFailures = 0 :=
  runPipeline_single_frame_failure [] 25 230 [⟨0, 100⟩, ⟨1, 100⟩] exDetect (by decide)

/-- C6: for a video with fewer decodable frames than the target sample
count, the Frame Sampler returns exactly the decodable frames — each frame
at most once, no padding, no duplication — and raises no error. -/
theorem sampleIndices_short_video (total n : ℕ) (h : total < n) :
    sampleIndices total n = List.range total ∧ (sampleIndices total n).Nodup ∧
      (sampleIndices total n).length = total := by
  have he : sampleIndices total n = List.range total := by
    unfold sampleIndices
    rw [if_pos (Nat.le_of_lt h)]
  refine ⟨he, ?_, ?_⟩
  · rw [he]
    exact List.nodup_range total
  · rw [he]
    exact List.length_range total

/-- Witness for C6: a three-frame video sampled with target count five. -/
theorem sampleIndices_short_video_witness :
    sampleIndices 3 5 = List.range 3 ∧ (sampleIndices 3 5).Nodup ∧
      (sampleIndices 3 5).length = 3 :=
  sampleIndices_short_video 3 5 (by decide)

/-- C7 counterexample: the spec's sentence "count ≥ frames-appeared-in is
false" fails on the aggregator's own output — for the synthetic input the
`person` summary has frames-appeared-in 3 ≤ count 3. -/
theorem aggregate_invariant_as_stated_false :
    ¬ (∀ a ∈ aggregate exFrames, ¬ (a.framesAppearedIn ≤ a.count)) := by
  intro h
  have hm : (⟨"person", 3, 4/5, 3⟩ : AggregatedDetection) ∈ aggregate exFrames := by
    rw [aggregate_exFrames_eval]
    exact List.mem_cons_self _ _
  exact h _ hm (by norm_num)

/-- C7 (amended): for every `AggregatedDetection` produced by the
aggregator, count ≥ frames-appeared-in holds (not its negation),
frames-appeared-in is at most the number of frames, and — for detections
whose confidences lie in `[0,1]`, as the Detection data model requires —
the mean confidence lies in `[0,1]`. -/
theorem aggregate_invariants (frames : List (List Detection)) (a : AggregatedDetection)
    (ha : a ∈ aggregate frames) :
    a.framesAppearedIn ≤ a.count ∧ a.framesAppearedIn ≤ frames.length ∧
      ((∀ d ∈ frames.flatten, 0 ≤ d.confidence ∧ d.confidence ≤ 1) →
        0 ≤ a.meanConfidence ∧ a.meanConfidence ≤ 1) := by
  obtain ⟨c, hcmem, rfl⟩ := mem_aggregate ha
  exact ⟨classFrames_le_classCount frames c, classFrames_le_length frames c,
    fun hconf => classMeanConfidence_mem_unit (classCount_pos hcmem) hconf⟩

/-- Witness for C7 at the synthetic input, instantiated at the `person`
summary of `aggregate exFrames`. -/
theorem aggregate_invariants_witness :
    (3 : ℕ) ≤ 3 ∧ (3 : ℕ) ≤ 4 ∧ (0 ≤ (4/5 : ℚ) ∧ (4/5 : ℚ) ≤ 1) := by
  have hm : (⟨"person", 3, 4/5, 3⟩ : AggregatedDetection) ∈ aggregate exFrames := by
    rw [aggregate_exFrames_eval]
    exact List.mem_cons_self _ _
  have h := aggregate_invariants exFrames ⟨"person", 3, 4/5, 3⟩ hm
  have hconf : ∀ d ∈ exFrames.flatten, 0 ≤ d.confidence ∧ d.confidence ≤ 1 := by
    intro d hd
    simp [exFrames] at hd
    rcases hd with rfl | rfl | rfl | rfl <;> norm_num
  exact ⟨h.1, h.2.1, h.2.2 hconf⟩

/-- C8: the aggregator's output is reproducible — any list that contains the
same aggregated detections (a permutation of the output) and is ordered by
the required ordering is the output itself, so identical input forces
identical values in identical order. -/
theorem aggregate_order_unique (frames : List (List Detection))
    (l : List AggregatedDetection) (hp : l.Perm (aggregate frames))
    (hs : List.Sorted precedes l) : l = aggregate frames := by
  refine sorted_perm_unique hp hs (aggregate_sorted frames) ?_
  intro a b ha hb hab hba
  obtain ⟨ca, _, rfl⟩ := mem_aggregate (hp.subset ha)
  obtain ⟨cb, _, rfl⟩ := mem_aggregate hb
  have hcc : ca = cb := precedes_antisymm_label hab hba
  rw [hcc]

/-- Witness for C8: the ordered two-class list of the synthetic example is
the aggregator's output. -/
theorem aggregate_order_unique_witness :
    [(⟨"person", 3, 4/5, 3⟩ : AggregatedDetection), ⟨"dog", 1, 3/5, 1⟩] =
      aggregate exFrames := by
  have hs : List.Sorted precedes
      [(⟨"person", 3, 4/5, 3⟩ : AggregatedDetection), ⟨"dog", 1, 3/5, 1⟩] := by
    refine List.pairwise_cons.mpr ⟨?_, List.pairwise_singleton _ _⟩
    intro b hb
    rw [List.mem_singleton] at hb
    subst hb
    exact Or.inl (by norm_num)
  exact aggregate_order_unique exFrames _
    (by rw [aggregate_exFrames_eval]) hs

/-- C9: a selected file whose MIME type does not start with "video/" is
rejected before the pipeline runs: `handleFileChange` stores the error
message and clears the stored file, after which `handleUpload` issues no
request. -/
theorem handleFileChange_rejects_non_video (f : UploadFile) (s : AppState)
    (h : stringStartsWith f.type "video/" = false) :
    (handleFileChange (some f) s).error = some invalidFileMessage ∧
      (handleFileChange (some f) s).file = none ∧
      handleUpload (handleFileChange (some f) s) = UploadEffect.noRequest := by
  simp [handleFileChange, h, handleUpload]

/-- Witness for C9: selecting an "image/png" file from a fresh state. -/
theorem handleFileChange_rejects_non_video_witness :
    (handleFileChange (some ⟨"pic.png", "image/png"⟩) ⟨none, none, false⟩).error =
        some invalidFileMessage ∧
      (handleFileChange (some ⟨"pic.png", "image/png"⟩) ⟨none, none, false⟩).file = none ∧
      handleUpload (handleFileChange (some ⟨"pic.png", "image/png"⟩) ⟨none, none, false⟩) =
        UploadEffect.noRequest :=
  handleFileChange_rejects_non_video ⟨"pic.png", "image/png"⟩ ⟨none, none, false⟩ (by decide)

/-- C10: `getConfidenceColor` is total and classifies every confidence into
exactly one of three bands: "success" iff confidence ≥ 0.8, "warning" iff
0.6 ≤ confidence < 0.8, and "error" iff confidence < 0.6. -/
theorem getConfidenceColor_bands (c : ℚ) :
    (getConfidenceColor c = "success" ↔ 0.8 ≤ c) ∧
      (getConfidenceColor c = "warning" ↔ 0.6 ≤ c ∧ c < 0.8) ∧
      (getConfidenceColor c = "error" ↔ c < 0.6) := by
  unfold getConfidenceColor
  split_ifs with h1 h2
  · refine ⟨iff_of_true rfl h1, iff_of_false (by decide) ?_, iff_of_false (by decide) ?_⟩
    · rintro ⟨-, hlt⟩
      linarith
    · intro hlt
      linarith
  · refine ⟨iff_of_false (by decide) h1, iff_of_true rfl ⟨h2, not_le.mp h1⟩,
      iff_of_false (by decide) ?_⟩
    intro hlt
    linarith
  · refine ⟨iff_of_false (by decide) h1, iff_of_false (by decide) ?_,
      iff_of_true rfl (not_le.mp h2)⟩
    rintro ⟨hge, -⟩
    exact h2 hge
